import Mathlib

/-!
Verification development for the PilotX driver-matching engine.

The definitions below are a shallow embedding of the matching code in
`src/unnamed/part_002` (functions `matchDriverToOrder`, `selectBestDriver`,
`calculateFairness`, `calculateTimeScore`) and `src/question2-code/pseudocode.js`.
JavaScript numbers are modelled as rationals (`ℚ`); the search radius, which
only ever takes the even integer values 2, 4, 6, ... is carried as a natural
number.  External collaborators (driver snapshot, lock manager, notification
gateway, peak-hour signal, randomness) are modelled as an explicit environment
`Env`, and the mutable fairness/cooldown store plus the order's notified
history as an explicit state `MatchState` threaded through the loops.  Helper
functions that the source calls but never defines are modelled from the spec
and marked as such.
-/

set_option maxRecDepth 20000

/-- A driver record as seen in the snapshot: `driverId`, `rating`,
`deliveriesToday`, `lastAssignment` (a millisecond timestamp).  The GPS
location is abstracted away: distances to the pickup point are supplied by
the environment (the source computes them with a haversine formula over the
coordinates, which the claims never inspect). -/
structure Driver where
  id : Nat
  rating : ℚ
  deliveries : ℚ
  lastAssignment : ℚ
deriving DecidableEq

/-- A candidate, as built by the filtering loop: `{driver, distance}`. -/
structure Candidate where
  driver : Driver
  distance : ℚ
deriving DecidableEq

/-- A scored candidate, as built by `selectBestDriver`'s map step:
the candidate together with its `finalScore`. -/
structure Scored where
  candidate : Candidate
  finalScore : ℚ
deriving DecidableEq

/-- Source `calculateFairness` (part_002 lines 131-134):
`Math.max(0, 1 - deliveriesToday / 20)` with `maxDaily = 20`. -/
def calculateFairness (deliveriesToday : ℚ) : ℚ :=
  max 0 (1 - deliveriesToday / 20)

/-- Source `calculateTimeScore` (part_002 lines 136-139):
`Math.min(1, (Date.now() - lastAssignment) / 3600000)`.  The current time
`Date.now()` is passed explicitly as `now`. -/
def calculateTimeScore (now lastAssignment : ℚ) : ℚ :=
  min 1 ((now - lastAssignment) / 3600000)

/-- Modelled from the spec: `normalizeRating` is called by `selectBestDriver`
(part_002 line 110) but defined nowhere under src.  Spec section 4.3 fixes it:
`normalizedRating = rating/5`. -/
def normalizeRating (rating : ℚ) : ℚ :=
  rating / 5

/-- One scored candidate of `selectBestDriver`'s map step (part_002 lines
106-118): `ratingScore + fairnessScore + timeScore + randomFactor` with
weights 0.4 / 0.3 / 0.2 / 0.1.  The candidate's `Math.random()` draw is
passed explicitly as `r`. -/
def scoreCandidate (now r : ℚ) (c : Candidate) : Scored :=
  { candidate := c
    finalScore :=
      normalizeRating c.driver.rating * 0.4
        + calculateFairness c.driver.deliveries * 0.3
        + calculateTimeScore now c.driver.lastAssignment * 0.2
        + r * 0.1 }

/-- The `group.map(candidate => ...)` step of `selectBestDriver`: each
candidate gets a fresh `Math.random()` draw, modelled by indexing the
injected random source `rand` with the candidate's position (starting
at `j`). -/
def scoreList (now : ℚ) (rand : Nat → ℚ) : Nat → List Candidate → List Scored
  | _, [] => []
  | j, c :: cs => scoreCandidate now (rand j) c :: scoreList now rand (j + 1) cs

/-- Source `scored.reduce((best, current) => current.finalScore > best.finalScore
? current : best)` (part_002 lines 122-124): a left fold seeded with the first
element, replacing the accumulator only on a strictly greater score. -/
def reduceBest : Scored → List Scored → Scored
  | best, [] => best
  | best, cur :: rest =>
      reduceBest (if best.finalScore < cur.finalScore then cur else best) rest

/-- Core of the chain-grouping: given the head candidate `c` and the remaining
distance-sorted candidates, return the group containing `c` together with the
groups after it.  A candidate joins the current group when its distance is
within `tol` of its predecessor, per the pairwise 250 m rule (spec section 8:
distances 1.0, 1.2, 1.3 collapse into one tier while 3.0 starts a new one). -/
def groupChainCore (tol : ℚ) (c : Candidate) :
    List Candidate → List Candidate × List (List Candidate)
  | [] => ([c], [])
  | d :: rest =>
      let p := groupChainCore tol d rest
      if d.distance - c.distance ≤ tol then (c :: p.1, p.2)
      else ([c], p.1 :: p.2)

/-- Chain-grouping of a distance-sorted candidate list into tolerance tiers. -/
def groupChain (tol : ℚ) : List Candidate → List (List Candidate)
  | [] => []
  | c :: rest => (groupChainCore tol c rest).1 :: (groupChainCore tol c rest).2

instance : DecidableRel (fun a b : Candidate => a.distance ≤ b.distance) :=
  fun a b => inferInstanceAs (Decidable (a.distance ≤ b.distance))

/-- Modelled from the spec: `groupByTolerance` is called by `selectBestDriver`
(part_002 line 99) but defined nowhere under src.  Spec section 4.3 step 1:
partition the candidates into distance tiers using the tolerance band, tiers
in ascending distance order, candidates whose distances differ pairwise by at
most the tolerance being treated as equidistant. -/
def groupByTolerance (candidates : List Candidate) (tol : ℚ) : List (List Candidate) :=
  groupChain tol (candidates.insertionSort (fun a b => a.distance ≤ b.distance))

/-- Source `selectBestDriver` (part_002 lines 97-126): group by the 250 m
tolerance, take the closest group; a singleton group is returned directly,
otherwise the group is scored and the reduce step picks the winner.  The JS
function returns `undefined` on an empty candidate list, modelled as `none`. -/
def selectBestDriver (now : ℚ) (rand : Nat → ℚ) (candidates : List Candidate) :
    Option Candidate :=
  match groupByTolerance candidates 0.25 with
  | [] => none
  | g :: _ =>
    match g with
    | [] => none
    | [c] => some c
    | c1 :: c2 :: rest =>
        some (reduceBest (scoreCandidate now (rand 0) c1)
          (scoreList now rand 1 (c2 :: rest))).candidate

/-- The first (closest) distance tier of a candidate list, i.e. the first
group formed by `groupByTolerance` under the 250 m tolerance band. -/
def firstTier (candidates : List Candidate) : List Candidate :=
  (groupByTolerance candidates 0.25).headI

example :
    groupByTolerance
      [⟨⟨1, 5, 0, 0⟩, 1⟩, ⟨⟨2, 5, 0, 0⟩, 1.2⟩, ⟨⟨3, 5, 0, 0⟩, 1.3⟩, ⟨⟨4, 5, 0, 0⟩, 3⟩]
      0.25 =
      [[⟨⟨1, 5, 0, 0⟩, 1⟩, ⟨⟨2, 5, 0, 0⟩, 1.2⟩, ⟨⟨3, 5, 0, 0⟩, 1.3⟩],
        [⟨⟨4, 5, 0, 0⟩, 3⟩]] := by
  norm_num [groupByTolerance, List.insertionSort, List.orderedInsert, groupChain,
    groupChainCore]

example :
    selectBestDriver 0 (fun _ => 0) [⟨⟨7, 5, 0, 0⟩, 1⟩] = some ⟨⟨7, 5, 0, 0⟩, 1⟩ := by
  norm_num [selectBestDriver, groupByTolerance, List.insertionSort, List.orderedInsert,
    groupChain, groupChainCore]

/-- Service area classification of an order (spec section 3): determines the
maximum search radius. -/
inductive ServiceAreaClass where
  | urban
  | suburban
deriving DecidableEq

/-- Modelled from the spec: `getBusinessThreshold` is called by
`matchDriverToOrder` (part_002 line 13) but defined nowhere under src; the
call-site comment and spec section 4.5 fix it: urban 15 km, suburban 25 km. -/
def getBusinessThreshold : ServiceAreaClass → Nat
  | .urban => 15
  | .suburban => 25

/-- Observable events of a matching run, recorded in order.  `roundStarted`
records the radius round index, the radius (km), the batch size, the cooldown
set at the start of the round and the driver ids that passed the round's
distance-and-cooldown filter; `notified` records one `sendOrderNotification`
call; `cooldownApplied` one `applyFairnessCooldown` call (with its duration in
seconds); `cooldownsRemoved` one `removeCooldownsForDrivers` call. -/
inductive Event where
  | roundStarted (round : Nat) (radius : Nat) (batchSize : ℚ)
      (cooldownAtStart : List Nat) (eligible : List Nat)
  | notified (round : Nat) (driverId : Nat)
  | cooldownApplied (driverIds : List Nat) (seconds : Nat)
  | cooldownsRemoved (driverIds : List Nat)
deriving DecidableEq

/-- Mutable state threaded through a matching run: the cooldown store (ids of
drivers currently in cooldown), the order's `notifiedDriversHistory`, and the
event log. -/
structure MatchState where
  cooldown : List Nat
  history : List Nat
  trace : List Event
deriving DecidableEq

/-- Outcome of a whole matching run.  `accepted` models the JS `return
acceptedDriver`; `thrownError` models the JS `throw new Error(msg)` — a
generic exception carrying only a message string, as opposed to a typed
failure value; `outOfFuel` is the artefact of bounding the loop by fuel and
is proved unreachable on the runs the claims examine. -/
inductive RunResult where
  | accepted (driverId : Nat)
  | thrownError (msg : String)
  | outOfFuel
deriving DecidableEq

/-- Outcome of the batch loop inside one radius round. -/
inductive BatchOutcome where
  | finished
  | accepted (driverId : Nat)
  | fuelOut
deriving DecidableEq

/-- The external world of one matching run.  `drivers k` is the snapshot
returned by `getPresortedDriverList()` in round `k`; `distance d` is
`calculateDistance(orderLocation, d.location)` (the haversine computation of
part_002 lines 145-156, abstracted over the coordinates); `peak k` is
`isPeakHours()` at round `k`'s escalation; `lockOk k b i` is the result of
`acquireLock(i, 10)` for driver `i` in batch `b` of round `k`; `accept k b ids`
is which of the notified drivers `ids` accepts first, if any; `select k b l` is
`selectBestDriversFromBatch(l)`.  Modelled from the spec: the src body of
`selectBestDriversFromBatch` (part_002 lines 175-179) returns the single
candidate produced by `selectBestDriver` although its doc comment and the
sites that iterate over its result treat it as a list ("top candidates up to
notification limit"); spec section 4.5 step 4b fixes the intent — the
top-ranked subset of the locked candidates — so the selection is kept
abstract, constrained by `select_sub` to return a subset of its input. -/
structure Env where
  drivers : Nat → List Driver
  distance : Driver → ℚ
  peak : Nat → Bool
  lockOk : Nat → Nat → Nat → Bool
  accept : Nat → Nat → List Nat → Option Nat
  select : Nat → Nat → List Candidate → List Candidate
  select_sub : ∀ k b l, ∀ c ∈ select k b l, c ∈ l
  initCooldown : List Nat

/-- Modelled from the spec: `isInCooldown` (called at part_002 line 25) is the
Fairness/Cooldown Store query of spec section 4.2, here membership in the
explicit cooldown set. -/
def isInCooldown (st : MatchState) (i : Nat) : Bool :=
  i ∈ st.cooldown

/-- Modelled from the spec: `applyFairnessCooldown` (part_002 lines 181-184)
is a stub in src; per its doc comment and spec section 4.2 `setCooldown`, it
puts every listed driver into cooldown.  The duration is recorded in the
event log. -/
def applyFairnessCooldown (st : MatchState) (ids : List Nat) (secs : Nat) : MatchState :=
  { st with
    cooldown := st.cooldown ++ ids
    trace := st.trace ++ [Event.cooldownApplied ids secs] }

/-- Modelled from the spec: `removeCooldownsForDrivers` (part_002 lines
186-189) is a stub in src; per its doc comment and spec section 4.2
`removeCooldown`, it removes every listed driver from cooldown. -/
def removeCooldownsForDrivers (st : MatchState) (ids : List Nat) : MatchState :=
  { st with
    cooldown := st.cooldown.filter (fun i => i ∉ ids)
    trace := st.trace ++ [Event.cooldownsRemoved ids] }

/-- Modelled from the spec: `waitForAcceptance` (part_002 lines 170-173) is a
stub in src; per its doc comment it returns the first of the notified drivers
to accept within the timeout, or null.  The choice is the environment's,
sanitised to the notified set. -/
def waitForAcceptance (env : Env) (k b : Nat) (ids : List Nat) : Option Nat :=
  match env.accept k b ids with
  | some d => if d ∈ ids then some d else none
  | none => none

/-- The candidate filter at the head of each radius round (part_002 lines
22-28): keep each driver whose distance is within the current radius and who
is not in cooldown, pairing it with its distance. -/
def roundFilter (env : Env) (radius : Nat) (cooldown : List Nat) :
    List Driver → List Candidate
  | [] => []
  | d :: ds =>
      if env.distance d ≤ (radius : ℚ) ∧ d.id ∉ cooldown then
        ⟨d, env.distance d⟩ :: roundFilter env radius cooldown ds
      else roundFilter env radius cooldown ds

/-- JavaScript `Array.slice` index conversion: arguments are truncated to
integers (all indices arising here are nonnegative, where truncation is the
floor). -/
def jsIndex (q : ℚ) : Nat := (⌊q⌋).toNat

/-- JavaScript `radiusCandidates.slice(batch, batch + batchSize)` (part_002
line 32), for the rational loop counter and batch size. -/
def jsSlice (l : List Candidate) (s e : ℚ) : List Candidate :=
  (l.take (jsIndex e)).drop (jsIndex s)

/-- The batch loop of one radius round (part_002 lines 31-72): take the next
slice of candidates, keep those whose lock is acquired, notify the selected
best drivers, record them in the history, and either return the accepting
driver (after a cooldown on the whole history) or apply a cooldown to this
batch's notified drivers and move to the next slice.  `batch` is the JS loop
counter (a JS number, since `batchSize` can be fractional), `bIdx` counts
batches for the environment's oracles, and `fuel` bounds the iteration. -/
def batchLoop (env : Env) (k : Nat) (cands : List Candidate) (batchSize : ℚ)
    (fuel : Nat) (batch : ℚ) (bIdx : Nat) (st : MatchState) :
    MatchState × BatchOutcome :=
  if _h : fuel = 0 then (st, .fuelOut)
  else if batch < (cands.length : ℚ) then
    let driverBatch := jsSlice cands batch (batch + batchSize)
    let batchCandidates := driverBatch.filter (fun c => env.lockOk k bIdx c.driver.id)
    if batchCandidates = [] then
      batchLoop env k cands batchSize (fuel - 1) (batch + batchSize) (bIdx + 1) st
    else
      let best := env.select k bIdx batchCandidates
      let batchNotified := best.map (fun c => c.driver.id)
      let st1 : MatchState :=
        { st with
          history := st.history ++ batchNotified
          trace := st.trace ++ batchNotified.map (Event.notified k) }
      match waitForAcceptance env k bIdx batchNotified with
      | some d => (applyFairnessCooldown st1 st1.history 600, .accepted d)
      | none =>
          batchLoop env k cands batchSize (fuel - 1) (batch + batchSize) (bIdx + 1)
            (applyFairnessCooldown st1 batchNotified 600)
  else (st, .finished)
termination_by fuel
decreasing_by all_goals omega

/-- The escalation step after a round with no acceptance (part_002 lines
74-87): the radius has just been incremented to `2*(k+1)+2`; during peak hours
with a non-empty notified history, cooldowns are removed for the whole history
and the batch size grows by 50% capped at 150; then, once the new radius
exceeds 6 km, the batch size grows by a flat 25 capped at 200. -/
def escalate (env : Env) (k : Nat) (batchSize : ℚ) (st : MatchState) :
    ℚ × MatchState :=
  let newRadius := 2 * (k + 1) + 2
  let p :=
    if env.peak k = true ∧ st.history ≠ [] then
      (min (batchSize * 1.5) 150, removeCooldownsForDrivers st st.history)
    else (batchSize, st)
  let batchSize2 := if 6 < newRadius then min (p.1 + 25) 200 else p.1
  (batchSize2, p.2)

/-- The radius loop of `matchDriverToOrder` (part_002 lines 17-88): while the
search radius (2 km in round 0, growing by 2 km per round) is within the
maximum, fetch the snapshot, filter it, run the batch loop, and on no
acceptance escalate and continue; when the radius exceeds the maximum, the JS
function throws a generic `Error`.  `fuel` bounds the iteration. -/
def matchLoop (env : Env) (maxRadius : Nat) (fuel : Nat) (k : Nat)
    (batchSize : ℚ) (st : MatchState) : MatchState × RunResult :=
  if _h : fuel = 0 then (st, .outOfFuel)
  else if 2 * (k + 1) ≤ maxRadius then
    let radius := 2 * (k + 1)
    let cands := roundFilter env radius st.cooldown (env.drivers k)
    let st1 : MatchState :=
      { st with
        trace := st.trace ++
          [Event.roundStarted k radius batchSize st.cooldown
            (cands.map (fun c => c.driver.id))] }
    match batchLoop env k cands batchSize (cands.length + 1) 0 0 st1 with
    | (st2, .accepted d) => (st2, .accepted d)
    | (st2, .fuelOut) => (st2, .outOfFuel)
    | (st2, .finished) =>
        let p := escalate env k batchSize st2
        matchLoop env maxRadius (fuel - 1) (k + 1) p.1 p.2
  else (st, .thrownError "No available drivers within service area")
termination_by fuel
decreasing_by omega

/-- Source `matchDriverToOrder` (part_002 lines 11-91): search radius starts
at 2 km, batch size at 50, the notified history and the event log empty, and
the cooldown store holds whatever the environment says it held.  The fuel
`maxRadius + 2` strictly exceeds the number of radius rounds any run can
perform (round `k` requires `2*(k+1) ≤ maxRadius`). -/
def matchDriverToOrder (env : Env) (cls : ServiceAreaClass) :
    MatchState × RunResult :=
  matchLoop env (getBusinessThreshold cls) (getBusinessThreshold cls + 2) 0 50
    ⟨env.initCooldown, [], []⟩

/-- Closed form of the event log produced by a run in which every radius
round sees an empty snapshot: one `roundStarted` event per round, with the
radius-based batch-size growth and nothing else. -/
def emptyRounds (maxRadius : Nat) (fuel : Nat) (k : Nat) (bs : ℚ) : List Event :=
  if _h : fuel = 0 then []
  else if 2 * (k + 1) ≤ maxRadius then
    Event.roundStarted k (2 * (k + 1)) bs [] [] ::
      emptyRounds maxRadius (fuel - 1) (k + 1)
        (if 6 < 2 * (k + 1) + 2 then min (bs + 25) 200 else bs)
  else []
termination_by fuel
decreasing_by omega

/-- Closed form of the outcome of a run in which every radius round sees an
empty snapshot. -/
def emptyResult (maxRadius : Nat) (fuel : Nat) (k : Nat) : RunResult :=
  if _h : fuel = 0 then .outOfFuel
  else if 2 * (k + 1) ≤ maxRadius then emptyResult maxRadius (fuel - 1) (k + 1)
  else .thrownError "No available drivers within service area"
termination_by fuel
decreasing_by omega

lemma matchLoop_empty (env : Env) (maxRadius : Nat) (hd : ∀ j, env.drivers j = []) :
    ∀ fuel k bs tr,
      matchLoop env maxRadius fuel k bs ⟨[], [], tr⟩ =
        (⟨[], [], tr ++ emptyRounds maxRadius fuel k bs⟩,
          emptyResult maxRadius fuel k) := by
  intro fuel
  induction fuel with
  | zero =>
      intro k bs tr
      rw [matchLoop, emptyRounds, emptyResult]
      simp
  | succ n ih =>
      intro k bs tr
      rw [matchLoop, emptyRounds, emptyResult]
      by_cases hg : 2 * (k + 1) ≤ maxRadius
      · simp only [hg, if_true, Nat.succ_ne_zero, dite_false, hd, roundFilter]
        rw [batchLoop]
        norm_num [escalate, ih]
      · simp [hg]

example (env : Env) (hd : ∀ j, env.drivers j = []) :
    matchLoop env 15 17 0 50 ⟨[], [], []⟩ =
      (⟨[], [], emptyRounds 15 17 0 50⟩, emptyResult 15 17 0) := by
  simpa using matchLoop_empty env 15 hd 17 0 50 []

lemma emptyRounds_urban :
    emptyRounds 15 17 0 50 =
      [Event.roundStarted 0 2 50 [] [], Event.roundStarted 1 4 50 [] [],
       Event.roundStarted 2 6 50 [] [], Event.roundStarted 3 8 75 [] [],
       Event.roundStarted 4 10 100 [] [], Event.roundStarted 5 12 125 [] [],
       Event.roundStarted 6 14 150 [] []] := by
  repeat (rw [emptyRounds]; norm_num)

lemma emptyResult_urban :
    emptyResult 15 17 0 = .thrownError "No available drivers within service area" := by
  repeat (rw [emptyResult]; norm_num)

/-- An environment with an empty driver snapshot in every round. -/
def envEmpty : Env where
  drivers := fun _ => []
  distance := fun _ => 1
  peak := fun _ => false
  lockOk := fun _ _ _ => true
  accept := fun _ _ _ => none
  select := fun _ _ l => l
  select_sub := fun _ _ _ _ h => h
  initCooldown := []

lemma envEmpty_run :
    matchDriverToOrder envEmpty .urban =
      (⟨[], [],
        [Event.roundStarted 0 2 50 [] [], Event.roundStarted 1 4 50 [] [],
         Event.roundStarted 2 6 50 [] [], Event.roundStarted 3 8 75 [] [],
         Event.roundStarted 4 10 100 [] [], Event.roundStarted 5 12 125 [] [],
         Event.roundStarted 6 14 150 [] []]⟩,
       .thrownError "No available drivers within service area") := by
  rw [matchDriverToOrder]
  show matchLoop envEmpty 15 17 0 50 ⟨[], [], []⟩ = _
  rw [matchLoop_empty envEmpty 15 (fun _ => rfl) 17 0 50 [], emptyRounds_urban,
    emptyResult_urban]
  simp

lemma scoreList_mem (now : ℚ) (rand : Nat → ℚ) :
    ∀ (l : List Candidate) (j : Nat) (x : Scored),
      x ∈ scoreList now rand j l → x.candidate ∈ l := by
  intro l
  induction l with
  | nil => intro j x hx; simp [scoreList] at hx
  | cons c cs ih =>
      intro j x hx
      rw [scoreList] at hx
      rcases List.mem_cons.mp hx with h | h
      · subst h; exact List.mem_cons_self _ _
      · exact List.mem_cons_of_mem _ (ih (j + 1) x h)

lemma scoreList_get? (now : ℚ) (rand : Nat → ℚ) :
    ∀ (l : List Candidate) (j i : Nat),
      (scoreList now rand j l).get? i =
        (l.get? i).map (fun c => scoreCandidate now (rand (j + i)) c) := by
  intro l
  induction l with
  | nil => intro j i; simp [scoreList]
  | cons c cs ih =>
      intro j i
      cases i with
      | zero => simp [scoreList]
      | succ m =>
          rw [scoreList]
          simp only [List.get?_cons_succ, ih (j + 1) m]
          have : j + 1 + m = j + (m + 1) := by omega
          rw [this]

lemma reduceBest_mem : ∀ (ss : List Scored) (s : Scored), reduceBest s ss ∈ s :: ss := by
  intro ss
  induction ss with
  | nil => intro s; rw [reduceBest]; exact List.mem_cons_self _ _
  | cons cur rest ih =>
      intro s
      rw [reduceBest]
      rcases List.mem_cons.mp (ih (if s.finalScore < cur.finalScore then cur else s)) with h | h
      · rw [h]
        split
        · exact List.mem_cons_of_mem _ (List.mem_cons_self _ _)
        · exact List.mem_cons_self _ _
      · exact List.mem_cons_of_mem _ (List.mem_cons_of_mem _ h)

lemma first_decomp_ge {s r : Scored} {rest l1 l2 : List Scored}
    (heq : s :: rest = l1 ++ r :: l2)
    (h1 : ∀ x ∈ l1, x.finalScore < r.finalScore) :
    s.finalScore ≤ r.finalScore := by
  cases l1 with
  | nil =>
      have : s = r := by
        have := congrArg List.head? heq
        simpa using this
      rw [this]
  | cons a t =>
      have hsa : s = a := by
        have := congrArg List.head? heq
        simpa using this
      exact le_of_lt (hsa ▸ h1 a (List.mem_cons_self _ _))

lemma reduceBest_first_max :
    ∀ (ss : List Scored) (s : Scored),
      ∃ l1 l2, s :: ss = l1 ++ reduceBest s ss :: l2 ∧
        (∀ x ∈ l1, x.finalScore < (reduceBest s ss).finalScore) ∧
        (∀ x ∈ l2, x.finalScore ≤ (reduceBest s ss).finalScore) := by
  intro ss
  induction ss with
  | nil =>
      intro s
      exact ⟨[], [], by simp [reduceBest], by simp, by simp⟩
  | cons cur rest ih =>
      intro s
      by_cases hc : s.finalScore < cur.finalScore
      · have hred : reduceBest s (cur :: rest) = reduceBest cur rest := by
          rw [reduceBest, if_pos hc]
        obtain ⟨l1, l2, heq, h1, h2⟩ := ih cur
        have hge : cur.finalScore ≤ (reduceBest cur rest).finalScore :=
          first_decomp_ge heq h1
        refine ⟨s :: l1, l2, ?_, ?_, by rw [hred]; exact h2⟩
        · rw [hred, List.cons_append, ← heq]
        · intro x hx
          rw [hred]
          rcases List.mem_cons.mp hx with h | h
          · rw [h]; exact lt_of_lt_of_le hc hge
          · exact h1 x h
      · have hred : reduceBest s (cur :: rest) = reduceBest s rest := by
          rw [reduceBest, if_neg hc]
        obtain ⟨l1, l2, heq, h1, h2⟩ := ih s
        have hge : s.finalScore ≤ (reduceBest s rest).finalScore :=
          first_decomp_ge heq h1
        have hcur : cur.finalScore ≤ (reduceBest s rest).finalScore :=
          le_trans (le_of_not_lt hc) hge
        cases l1 with
        | nil =>
            have hsr : s = reduceBest s rest := by
              have := congrArg List.head? heq
              simpa using this
            have hl2 : rest = l2 := by
              have := congrArg List.tail heq
              simpa using this
            refine ⟨[], cur :: rest, ?_, by simp, ?_⟩
            · rw [hred, List.nil_append, ← hsr]
            · intro x hx
              rw [hred]
              rcases List.mem_cons.mp hx with h | h
              · rw [h]; exact hcur
              · exact h2 x (hl2 ▸ h)
        | cons a t =>
            have hsa : s = a := by
              have := congrArg List.head? heq
              simpa using this
            have hrest : rest = t ++ reduceBest s rest :: l2 := by
              have := congrArg List.tail heq
              simpa using this
            refine ⟨s :: cur :: t, l2, ?_, ?_, by rw [hred]; exact h2⟩
            · rw [hred]
              simp only [List.cons_append]
              rw [← hrest]
            · intro x hx
              rw [hred]
              have hslt : s.finalScore < (reduceBest s rest).finalScore := by
                have ha := h1 a (List.mem_cons_self a t)
                rwa [← hsa] at ha
              rcases List.mem_cons.mp hx with h | h
              · rw [h]; exact hslt
              · rcases List.mem_cons.mp h with h' | h'
                · rw [h']; exact lt_of_le_of_lt (le_of_not_lt hc) hslt
                · exact h1 x (List.mem_cons_of_mem _ h')

lemma groupChainCore_fst (tol : ℚ) :
    ∀ (l : List Candidate) (c : Candidate),
      ∃ t, (groupChainCore tol c l).1 = c :: t := by
  intro l
  induction l with
  | nil => intro c; exact ⟨[], rfl⟩
  | cons d rest _ =>
      intro c
      rw [groupChainCore]
      split
      · exact ⟨(groupChainCore tol d rest).1, rfl⟩
      · exact ⟨[], rfl⟩

lemma insertionSort_ne_nil {cs : List Candidate} (h : cs ≠ []) :
    cs.insertionSort (fun a b => a.distance ≤ b.distance) ≠ [] := by
  intro hnil
  apply h
  have hp := (List.perm_insertionSort (fun a b : Candidate => a.distance ≤ b.distance) cs).symm
  rw [hnil] at hp
  exact hp.eq_nil

/-- C1.  For every non-empty candidate list, the driver selected by the
Candidate Scorer belongs to the closest distance tier — the first group formed
by `groupByTolerance` under the 250 m tolerance band; no candidate from a
farther tier is ever selected while a closer tier is non-empty. -/
theorem C1_selection_in_first_tier (now : ℚ) (rand : Nat → ℚ)
    (cs : List Candidate) (h : cs ≠ []) :
    ∃ c, selectBestDriver now rand cs = some c ∧ c ∈ firstTier cs := by
  rcases hs : cs.insertionSort (fun a b => a.distance ≤ b.distance) with _ | ⟨d, rest⟩
  · exact absurd hs (insertionSort_ne_nil h)
  · obtain ⟨t, ht⟩ := groupChainCore_fst 0.25 rest d
    have hg : groupByTolerance cs 0.25 =
        (d :: t) :: (groupChainCore 0.25 d rest).2 := by
      rw [groupByTolerance, hs, groupChain, ht]
    have hft : firstTier cs = d :: t := by
      rw [firstTier, hg]; rfl
    rw [selectBestDriver, hg]
    cases t with
    | nil =>
        exact ⟨d, rfl, by rw [hft]; exact List.mem_cons_self _ _⟩
    | cons c2 rest2 =>
        refine ⟨_, rfl, ?_⟩
        rw [hft]
        have hmem := reduceBest_mem (scoreList now rand 1 (c2 :: rest2))
          (scoreCandidate now (rand 0) d)
        have hsl : scoreCandidate now (rand 0) d :: scoreList now rand 1 (c2 :: rest2) =
            scoreList now rand 0 (d :: c2 :: rest2) := by
          simp [scoreList]
        rw [hsl] at hmem
        exact scoreList_mem now rand _ 0 _ hmem

/-- A concrete candidate list realising the spec's tier example: distances
1.0, 1.2, 1.3 and 3.0 km. -/
def csTier : List Candidate :=
  [⟨⟨1, 5, 0, 0⟩, 1⟩, ⟨⟨2, 5, 0, 0⟩, 1.2⟩, ⟨⟨3, 5, 0, 0⟩, 1.3⟩, ⟨⟨4, 5, 0, 0⟩, 3⟩]

/-- Witness for C1 at the spec's tier example. -/
theorem C1_selection_in_first_tier_witness :
    csTier ≠ [] ∧
      ∃ c, selectBestDriver 0 (fun _ => 0) csTier = some c ∧ c ∈ firstTier csTier :=
  ⟨by simp [csTier], C1_selection_in_first_tier 0 (fun _ => 0) csTier (by simp [csTier])⟩

/-- C4.  Every candidate scored within a tier receives
`finalScore = 0.4·(rating/5) + 0.3·max(0, 1 − deliveriesToday/20)
+ 0.2·min(1, hoursSince(lastAssignment)) + 0.1·r`, where `r` is the random
draw injected for exactly that candidate's position in the scoring call (the
freshness per candidate per call of `Math.random()`; its uniform distribution
on [0,1) is a property of the runtime, not formalised here). -/
theorem C4_final_score_formula (now : ℚ) (rand : Nat → ℚ)
    (group : List Candidate) (i : Nat) (c : Candidate)
    (hc : group.get? i = some c) :
    (scoreList now rand 0 group).get? i = some
      { candidate := c
        finalScore :=
          0.4 * (c.driver.rating / 5)
            + 0.3 * max 0 (1 - c.driver.deliveries / 20)
            + 0.2 * min 1 ((now - c.driver.lastAssignment) / 3600000)
            + 0.1 * rand i } := by
  rw [scoreList_get?, hc]
  simp only [Option.map_some', Option.some.injEq, Nat.zero_add, scoreCandidate,
    normalizeRating, calculateFairness, calculateTimeScore, Scored.mk.injEq, true_and]
  generalize max (0:ℚ) (1 - c.driver.deliveries / 20) = B
  generalize min (1:ℚ) ((now - c.driver.lastAssignment) / 3600000) = C
  ring

/-- A concrete candidate for the C4 witness. -/
def c4w : Candidate := ⟨⟨9, 4.5, 3, 0⟩, 1⟩

/-- Witness for C4 at a concrete candidate, time and random draw. -/
theorem C4_final_score_formula_witness :
    [c4w].get? 0 = some c4w ∧
      (scoreList 7 (fun _ => 1/2) 0 [c4w]).get? 0 = some
        { candidate := c4w
          finalScore :=
            0.4 * (c4w.driver.rating / 5)
              + 0.3 * max 0 (1 - c4w.driver.deliveries / 20)
              + 0.2 * min 1 ((7 - c4w.driver.lastAssignment) / 3600000)
              + 0.1 * (1/2) } :=
  ⟨rfl, C4_final_score_formula 7 (fun _ => 1/2) [c4w] 0 c4w rfl⟩

/-- Two candidates of one tolerance tier that differ only in driver id and
slightly in distance: the closer one carries the higher id 5. -/
def c6a : Candidate := ⟨⟨5, 4, 0, 0⟩, 1⟩

/-- The farther candidate of the C6 pair, with the lower id 3. -/
def c6b : Candidate := ⟨⟨3, 4, 0, 0⟩, 1.1⟩

/-- Counterexample to C6.  The scorer's output is a single candidate rather
than an ordered list, and on a finalScore tie it keeps the earlier-positioned
candidate of the tier, not the one with the lower driver id: here both
candidates (one tier, 100 m apart) score identically, yet the candidate with
id 5 is selected over the candidate with id 3. -/
theorem C6_tie_break_counterexample :
    (scoreCandidate 0 0 c6a).finalScore = (scoreCandidate 0 0 c6b).finalScore ∧
    c6a.driver.id = 5 ∧ c6b.driver.id = 3 ∧
    selectBestDriver 0 (fun _ => 0) [c6a, c6b] = some c6a := by
  refine ⟨?_, rfl, rfl, ?_⟩
  · norm_num [scoreCandidate, normalizeRating, calculateFairness, calculateTimeScore,
      c6a, c6b]
  · norm_num [selectBestDriver, groupByTolerance, List.insertionSort,
      List.orderedInsert, groupChain, groupChainCore, scoreList, reduceBest,
      scoreCandidate, normalizeRating, calculateFairness, calculateTimeScore, c6a, c6b]

/-- C6 as amended.  The Candidate Scorer returns a single top candidate of the
chosen (first) tier, not an ordered list: a candidate of maximal finalScore,
and when several candidates tie on finalScore the one occupying the earliest
position in the tier's distance-sorted order is returned, regardless of driver
id.  Formally, the scored tier splits as `l1 ++ s :: l2` around the returned
candidate's score entry `s`, with everything before it strictly below
`s.finalScore` and everything after it at most `s.finalScore`. -/
theorem C6_amended_single_first_max (now : ℚ) (rand : Nat → ℚ)
    (cs : List Candidate) (h : cs ≠ []) :
    ∃ c, selectBestDriver now rand cs = some c ∧ c ∈ firstTier cs ∧
      (2 ≤ (firstTier cs).length →
        ∃ s l1 l2, scoreList now rand 0 (firstTier cs) = l1 ++ s :: l2 ∧
          s.candidate = c ∧
          (∀ x ∈ l1, x.finalScore < s.finalScore) ∧
          (∀ x ∈ l2, x.finalScore ≤ s.finalScore)) := by
  rcases hs : cs.insertionSort (fun a b => a.distance ≤ b.distance) with _ | ⟨d, rest⟩
  · exact absurd hs (insertionSort_ne_nil h)
  · obtain ⟨t, ht⟩ := groupChainCore_fst 0.25 rest d
    have hg : groupByTolerance cs 0.25 =
        (d :: t) :: (groupChainCore 0.25 d rest).2 := by
      rw [groupByTolerance, hs, groupChain, ht]
    have hft : firstTier cs = d :: t := by
      rw [firstTier, hg]; rfl
    rw [selectBestDriver, hg]
    cases t with
    | nil =>
        refine ⟨d, rfl, by rw [hft]; exact List.mem_cons_self _ _, ?_⟩
        intro hlen
        rw [hft] at hlen
        simp at hlen
    | cons c2 rest2 =>
        obtain ⟨l1, l2, heq, h1, h2⟩ :=
          reduceBest_first_max (scoreList now rand 1 (c2 :: rest2))
            (scoreCandidate now (rand 0) d)
        have hsl : scoreCandidate now (rand 0) d :: scoreList now rand 1 (c2 :: rest2) =
            scoreList now rand 0 (d :: c2 :: rest2) := by
          simp [scoreList]
        refine ⟨_, rfl, ?_, ?_⟩
        · rw [hft]
          have hmem := reduceBest_mem (scoreList now rand 1 (c2 :: rest2))
            (scoreCandidate now (rand 0) d)
          rw [hsl] at hmem
          exact scoreList_mem now rand _ 0 _ hmem
        · intro _
          refine ⟨reduceBest (scoreCandidate now (rand 0) d)
            (scoreList now rand 1 (c2 :: rest2)), l1, l2, ?_, rfl, h1, h2⟩
          rw [hft, ← hsl, heq]

/-- Witness for the amended C6 at the concrete tied pair. -/
theorem C6_amended_single_first_max_witness :
    [c6a, c6b] ≠ [] ∧
      ∃ c, selectBestDriver 0 (fun _ => 0) [c6a, c6b] = some c ∧ c ∈ firstTier [c6a, c6b] ∧
        (2 ≤ (firstTier [c6a, c6b]).length →
          ∃ s l1 l2, scoreList 0 (fun _ => 0) 0 (firstTier [c6a, c6b]) = l1 ++ s :: l2 ∧
            s.candidate = c ∧
            (∀ x ∈ l1, x.finalScore < s.finalScore) ∧
            (∀ x ∈ l2, x.finalScore ≤ s.finalScore)) :=
  ⟨by simp, C6_amended_single_first_max 0 (fun _ => 0) [c6a, c6b] (by simp)⟩

/-- Driver X of the spec's boundary scenario: rating 4.9, 18 deliveries
today, at 0.9 km. -/
def c9x : Candidate := ⟨⟨1, 4.9, 18, 0⟩, 0.9⟩

/-- Driver Y of the spec's boundary scenario: rating 4.0, 2 deliveries
today, at 1.0 km. -/
def c9y : Candidate := ⟨⟨2, 4, 2, 0⟩, 1⟩

lemma calculateFairness_18 : calculateFairness 18 = 1/10 := by
  rw [calculateFairness, show (1:ℚ) - 18/20 = 1/10 by norm_num]
  exact max_eq_right (by norm_num)

lemma calculateFairness_2 : calculateFairness 2 = 9/10 := by
  rw [calculateFairness, show (1:ℚ) - 2/20 = 9/10 by norm_num]
  exact max_eq_right (by norm_num)

/-- Counterexample to C9.  In the boundary scenario the fairness terms do
give Y a 0.24 weighted advantage, but the rating terms give X a 0.4-weighted
advantage of 0.072 (the ratings are normalised by 5), not 0.36, and it does
not dominate: with equal recency and random draws, X's finalScore is strictly
below Y's. -/
theorem C9_rating_advantage_counterexample :
    calculateFairness c9y.driver.deliveries * 0.3
        - calculateFairness c9x.driver.deliveries * 0.3 = 0.24 ∧
    normalizeRating c9x.driver.rating * 0.4
        - normalizeRating c9y.driver.rating * 0.4 ≠ 0.36 ∧
    (scoreCandidate 0 0 c9x).finalScore < (scoreCandidate 0 0 c9y).finalScore := by
  refine ⟨?_, ?_, ?_⟩
  · show calculateFairness 2 * 0.3 - calculateFairness 18 * 0.3 = 0.24
    rw [calculateFairness_2, calculateFairness_18]; norm_num
  · show normalizeRating 4.9 * 0.4 - normalizeRating 4 * 0.4 ≠ 0.36
    rw [normalizeRating, normalizeRating]; norm_num
  · show (scoreCandidate 0 0 c9x).finalScore < (scoreCandidate 0 0 c9y).finalScore
    simp only [scoreCandidate, c9x, c9y, normalizeRating]
    rw [calculateFairness_2, calculateFairness_18]
    norm_num [calculateTimeScore]

/-- C9 as amended.  In the boundary scenario the fairness terms give Y a
weighted advantage of 0.24 (0.3·(0.9−0.1)) over X, while the rating terms give
X a 0.4-weighted advantage of only 0.072 (0.4·(4.9−4.0)/5, the ratings being
normalised by 5); the fairness advantage therefore dominates, and with equal
recency and equal random draws the scoring puts Y strictly ahead of X before
the random term can matter. -/
theorem C9_amended_fairness_dominates (now t r : ℚ) :
    calculateFairness 2 * 0.3 - calculateFairness 18 * 0.3 = 0.24 ∧
    normalizeRating 4.9 * 0.4 - normalizeRating 4 * 0.4 = 0.072 ∧
    (scoreCandidate now r ⟨⟨1, 4.9, 18, t⟩, 0.9⟩).finalScore
      < (scoreCandidate now r ⟨⟨2, 4, 2, t⟩, 1⟩).finalScore := by
  refine ⟨?_, ?_, ?_⟩
  · rw [calculateFairness_2, calculateFairness_18]; norm_num
  · rw [normalizeRating, normalizeRating]; norm_num
  · simp only [scoreCandidate, normalizeRating]
    rw [calculateFairness_2, calculateFairness_18, calculateTimeScore]
    have hmin : min (1:ℚ) ((now - t) / 3600000) ≤ 1 := min_le_left _ _
    nlinarith [hmin]

/-- Written from the spec's words (section 4.5 step 5): during peak hours,
when the notified-history list is non-empty, remove the history's cooldowns
and grow the batch size by 50%, capped at 150.  Only the batch-size component
is of interest here. -/
def specPeakBatchUpdate (peak : Bool) (history : List Nat) (b : ℚ) : ℚ :=
  if peak = true ∧ history ≠ [] then min (b * 1.5) 150 else b

/-- Written from the spec's words (section 4.5 step 5): once the radius has
expanded past the third step (beyond 6 km), grow the batch size by a flat 25,
capped at 200. -/
def specRadiusBatchUpdate (newRadius : Nat) (b : ℚ) : ℚ :=
  if 6 < newRadius then min (b + 25) 200 else b

/-- C7.  The escalation step updates the batch size by applying the peak-hour
multiplier first (times 1.5 capped at 150, only when peak hours hold and the
notified-history list is non-empty) and then the radius-based increment (plus
25 capped at 200, only once the incremented radius `2·(k+1)+2` exceeds the
third step of 6 km): the batch size it produces is exactly the composition of
the two spec updates in that order. -/
theorem C7_peak_update_before_radius_update (env : Env) (k : Nat) (bs : ℚ)
    (st : MatchState) :
    (escalate env k bs st).1 =
      specRadiusBatchUpdate (2 * (k + 1) + 2)
        (specPeakBatchUpdate (env.peak k) st.history bs) := by
  rw [escalate, specPeakBatchUpdate, specRadiusBatchUpdate]
  by_cases hp : env.peak k = true ∧ st.history ≠ [] <;> simp [hp]

lemma roundFilter_not_cooldown (env : Env) (radius : Nat) (cooldown : List Nat) :
    ∀ (ds : List Driver) (c : Candidate),
      c ∈ roundFilter env radius cooldown ds → c.driver.id ∉ cooldown := by
  intro ds
  induction ds with
  | nil => intro c hc; simp [roundFilter] at hc
  | cons d rest ih =>
      intro c hc
      rw [roundFilter] at hc
      split at hc
      · rcases List.mem_cons.mp hc with h | h
        · subst h
          next hcond => exact hcond.2
        · exact ih c h
      · exact ih c hc

lemma jsSlice_subset (l : List Candidate) (s e : ℚ) : jsSlice l s e ⊆ l := by
  rw [jsSlice]
  intro c hc
  exact List.take_subset _ _ (List.drop_subset _ _ hc)

lemma batchLoop_spec (env : Env) (k : Nat) (cands : List Candidate) (bs : ℚ) :
    ∀ (fuel : Nat) (batch : ℚ) (bIdx : Nat) (st st2 : MatchState)
      (out : BatchOutcome),
      batchLoop env k cands bs fuel batch bIdx st = (st2, out) →
      ∃ Δ, st2.trace = st.trace ++ Δ ∧ st.history ⊆ st2.history ∧
        (∀ ev ∈ Δ,
          (∃ i, ev = Event.notified k i ∧
            i ∈ cands.map (fun c => c.driver.id) ∧ i ∈ st2.history) ∨
          (∃ ids, ev = Event.cooldownApplied ids 600)) ∧
        (∀ d, out = .accepted d →
          Event.cooldownApplied st2.history 600 ∈ st2.trace) := by
  intro fuel
  induction fuel with
  | zero =>
      intro batch bIdx st st2 out h
      rw [batchLoop, dif_pos rfl] at h
      injection h with h1 h2
      subst h1; subst h2
      exact ⟨[], by simp, List.Subset.refl _, by simp, by intro d hd; simp at hd⟩
  | succ n ih =>
      intro batch bIdx st st2 out h
      rw [batchLoop, dif_neg (by omega : ¬(n + 1 = 0))] at h
      split at h
      · dsimp only at h
        split at h
        · exact ih _ _ _ _ _ h
        · next he =>
            set bn := (env.select k bIdx
                ((jsSlice cands batch (batch + bs)).filter
                  (fun c => env.lockOk k bIdx c.driver.id))).map
                (fun c => c.driver.id) with hbn_def
            have hbn : ∀ i ∈ bn, i ∈ cands.map (fun c => c.driver.id) := by
              intro i hi
              rw [hbn_def] at hi
              obtain ⟨c, hc, rfl⟩ := List.mem_map.mp hi
              have hc1 := env.select_sub k bIdx _ c hc
              have hc2 := List.mem_of_mem_filter hc1
              exact List.mem_map_of_mem _ (jsSlice_subset cands batch (batch + bs) hc2)
            split at h
            · next d0 hw =>
                injection h with h1 h2
                subst h1; subst h2
                refine ⟨bn.map (Event.notified k) ++
                  [Event.cooldownApplied (st.history ++ bn) 600], ?_, ?_, ?_, ?_⟩
                · simp [applyFairnessCooldown]
                · simp only [applyFairnessCooldown]
                  exact List.subset_append_left _ _
                · intro ev hev
                  rcases List.mem_append.mp hev with hev | hev
                  · obtain ⟨i, hi, rfl⟩ := List.mem_map.mp hev
                    refine Or.inl ⟨i, rfl, hbn i hi, ?_⟩
                    simp only [applyFairnessCooldown]
                    exact List.mem_append_right _ hi
                  · rcases List.mem_singleton.mp hev with rfl
                    exact Or.inr ⟨_, rfl⟩
                · intro d hd
                  simp [applyFairnessCooldown]
            · next hw =>
                obtain ⟨Δ2, htr, hhist, hev, hacc⟩ := ih _ _ _ _ _ h
                refine ⟨bn.map (Event.notified k) ++
                  [Event.cooldownApplied bn 600] ++ Δ2, ?_, ?_, ?_, hacc⟩
                · rw [htr]
                  simp [applyFairnessCooldown]
                · exact List.Subset.trans (List.subset_append_left st.history bn) hhist
                · intro ev hevm
                  rcases List.mem_append.mp hevm with hev1 | hev1
                  · rcases List.mem_append.mp hev1 with hev2 | hev2
                    · obtain ⟨i, hi, rfl⟩ := List.mem_map.mp hev2
                      refine Or.inl ⟨i, rfl, hbn i hi, ?_⟩
                      exact hhist (List.mem_append_right _ hi)
                    · rcases List.mem_singleton.mp hev2 with rfl
                      exact Or.inr ⟨_, rfl⟩
                  · exact hev ev hev1
      · injection h with h1 h2
        subst h1; subst h2
        exact ⟨[], by simp, List.Subset.refl _, by simp, by intro d hd; simp at hd⟩

/-- Every driver recorded as notified in the trace is in the state's
notified-history list. -/
def NotifiedInHistory (st : MatchState) : Prop :=
  ∀ k i, Event.notified k i ∈ st.trace → i ∈ st.history

/-- Every radius round recorded in the trace started with a batch size
between 50 and 200. -/
def BatchSizesBounded (tr : List Event) : Prop :=
  ∀ k rad b cd el, Event.roundStarted k rad b cd el ∈ tr → 50 ≤ b ∧ b ≤ 200

/-- Every notification in the trace went to a driver who passed its round's
distance-and-cooldown filter: the round's `roundStarted` record lists the
driver among the eligible ids, and the driver is not in the cooldown set the
round's filter consulted. -/
def NotifiedCovered (tr : List Event) : Prop :=
  ∀ k i, Event.notified k i ∈ tr →
    ∃ rad b cd el, Event.roundStarted k rad b cd el ∈ tr ∧ i ∈ el ∧ i ∉ cd

lemma escalate_history (env : Env) (k : Nat) (bs : ℚ) (st : MatchState) :
    (escalate env k bs st).2.history = st.history := by
  rw [escalate]
  dsimp only
  split <;> rfl

lemma escalate_trace (env : Env) (k : Nat) (bs : ℚ) (st : MatchState) :
    ∃ Δ, (escalate env k bs st).2.trace = st.trace ++ Δ ∧
      ∀ ev ∈ Δ, ∃ ids, ev = Event.cooldownsRemoved ids := by
  rw [escalate]
  dsimp only
  split
  · exact ⟨[Event.cooldownsRemoved st.history], rfl, by simp⟩
  · exact ⟨[], by simp, by simp⟩

lemma escalate_bounds (env : Env) (k : Nat) (bs : ℚ) (st : MatchState)
    (h1 : 50 ≤ bs) (h2 : bs ≤ 200) :
    50 ≤ (escalate env k bs st).1 ∧ (escalate env k bs st).1 ≤ 200 := by
  rw [escalate]
  dsimp only
  have hbase : 50 ≤ (if env.peak k = true ∧ st.history ≠ [] then
        (min (bs * 1.5) 150, removeCooldownsForDrivers st st.history)
      else (bs, st)).1 ∧
      (if env.peak k = true ∧ st.history ≠ [] then
        (min (bs * 1.5) 150, removeCooldownsForDrivers st st.history)
      else (bs, st)).1 ≤ 200 := by
    split
    · dsimp only
      constructor
      · refine le_min (by linarith) (by norm_num)
      · exact le_trans (min_le_right _ _) (by norm_num)
    · exact ⟨h1, h2⟩
  split
  · constructor
    · exact le_min (by linarith [hbase.1]) (by norm_num)
    · exact min_le_right _ _
  · exact hbase

lemma round_event_props (env : Env) (k : Nat) (bs : ℚ) (st stB : MatchState)
    (outB : BatchOutcome)
    (hB : batchLoop env k (roundFilter env (2 * (k + 1)) st.cooldown (env.drivers k))
        bs ((roundFilter env (2 * (k + 1)) st.cooldown (env.drivers k)).length + 1) 0 0
        { st with trace := st.trace ++
          [Event.roundStarted k (2 * (k + 1)) bs st.cooldown
            ((roundFilter env (2 * (k + 1)) st.cooldown (env.drivers k)).map
              (fun c => c.driver.id))] } = (stB, outB)) :
    (∃ Δ, stB.trace = st.trace ++ Δ) ∧
    st.history ⊆ stB.history ∧
    (NotifiedInHistory st → NotifiedInHistory stB) ∧
    (∀ d, outB = .accepted d →
      Event.cooldownApplied stB.history 600 ∈ stB.trace) ∧
    (50 ≤ bs → bs ≤ 200 → BatchSizesBounded st.trace → BatchSizesBounded stB.trace) ∧
    (NotifiedCovered st.trace → NotifiedCovered stB.trace) := by
  obtain ⟨Δb, htrB, hhistB, hevB, haccB⟩ := batchLoop_spec env k _ bs _ _ _ _ _ _ hB
  have htrB2 : stB.trace = st.trace ++
      (Event.roundStarted k (2 * (k + 1)) bs st.cooldown
        ((roundFilter env (2 * (k + 1)) st.cooldown (env.drivers k)).map
          (fun c => c.driver.id)) :: Δb) := by
    rw [htrB]; simp
  refine ⟨⟨_, htrB2⟩, hhistB, ?_, haccB, ?_, ?_⟩
  · intro hni k2 i hmem
    rw [htrB2] at hmem
    rcases List.mem_append.mp hmem with hm | hm
    · exact hhistB (hni k2 i hm)
    · rcases List.mem_cons.mp hm with hm | hm
      · simp at hm
      · rcases hevB _ hm with ⟨i2, hei, _, hih⟩ | ⟨ids, hei⟩
        · obtain ⟨rfl, rfl⟩ : k2 = k ∧ i = i2 := by
            injection hei with a b
            exact ⟨a, b⟩
          exact hih
        · simp at hei
  · intro hb1 hb2 hbs k2 rad b cd el hmem
    rw [htrB2] at hmem
    rcases List.mem_append.mp hmem with hm | hm
    · exact hbs k2 rad b cd el hm
    · rcases List.mem_cons.mp hm with hm | hm
      · injection hm with a1 a2 a3 a4 a5
        subst a3
        exact ⟨hb1, hb2⟩
      · rcases hevB _ hm with ⟨i2, hei, _, _⟩ | ⟨ids, hei⟩ <;> simp at hei
  · intro hnc k2 i hmem
    rw [htrB2] at hmem
    rcases List.mem_append.mp hmem with hm | hm
    · obtain ⟨rad, b, cd, el, hrs, hiel, hicd⟩ := hnc k2 i hm
      exact ⟨rad, b, cd, el, by rw [htrB2]; exact List.mem_append_left _ hrs, hiel, hicd⟩
    · rcases List.mem_cons.mp hm with hm | hm
      · simp at hm
      · rcases hevB _ hm with ⟨i2, hei, hic, _⟩ | ⟨ids, hei⟩
        · obtain ⟨hk, hi⟩ : k2 = k ∧ i = i2 := by
            injection hei with a b
            exact ⟨a, b⟩
          rw [hk, hi]
          refine ⟨2 * (k + 1), bs, st.cooldown, _, ?_, hic, ?_⟩
          · rw [htrB2]
            exact List.mem_append_right _ (List.mem_cons_self _ _)
          · obtain ⟨c, hcmem, rfl⟩ := List.mem_map.mp hic
            exact roundFilter_not_cooldown env (2 * (k + 1)) st.cooldown _ c hcmem
        · simp at hei

lemma matchLoop_spec (env : Env) (maxRadius : Nat) :
    ∀ (fuel k : Nat) (bs : ℚ) (st st2 : MatchState) (res : RunResult),
      matchLoop env maxRadius fuel k bs st = (st2, res) →
      (∃ Δ, st2.trace = st.trace ++ Δ) ∧
      st.history ⊆ st2.history ∧
      (NotifiedInHistory st → NotifiedInHistory st2) ∧
      (∀ d, res = .accepted d →
        Event.cooldownApplied st2.history 600 ∈ st2.trace) ∧
      (50 ≤ bs → bs ≤ 200 → BatchSizesBounded st.trace → BatchSizesBounded st2.trace) ∧
      (NotifiedCovered st.trace → NotifiedCovered st2.trace) := by
  intro fuel
  induction fuel with
  | zero =>
      intro k bs st st2 res h
      rw [matchLoop, dif_pos rfl] at h
      injection h with h1 h2
      subst h1; subst h2
      exact ⟨⟨[], by simp⟩, List.Subset.refl _, fun x => x,
        by intro d hd; simp at hd, fun _ _ x => x, fun x => x⟩
  | succ n ih =>
      intro k bs st st2 res h
      rw [matchLoop, dif_neg (by omega : ¬(n + 1 = 0))] at h
      split at h
      · dsimp only at h
        split at h
        · next stB d heq =>
            injection h with h1 h2
            subst h1; subst h2
            obtain ⟨hΔ, hhist, hnih, hacc, hbsf, hncf⟩ :=
              round_event_props env k bs st stB (.accepted d) heq
            refine ⟨hΔ, hhist, hnih, ?_, hbsf, hncf⟩
            intro d0 hd0
            have hd : d = d0 := by injection hd0
            exact hacc d0 (by rw [hd])
        · next stB heq =>
            injection h with h1 h2
            subst h1; subst h2
            obtain ⟨hΔ, hhist, hnih, _, hbsf, hncf⟩ :=
              round_event_props env k bs st stB .fuelOut heq
            exact ⟨hΔ, hhist, hnih, by intro d hd; simp at hd, hbsf, hncf⟩
        · next stB heq =>
            rw [Nat.add_sub_cancel] at h
            obtain ⟨⟨Δb, hΔb⟩, hhistB, hnihB, _, hbsfB, hncfB⟩ :=
              round_event_props env k bs st stB .finished heq
            obtain ⟨Δe, htre, heve⟩ := escalate_trace env k bs stB
            have hhe := escalate_history env k bs stB
            obtain ⟨⟨Δ2, hΔ2⟩, hhist2, hnih2, hacc2, hbsf2, hncf2⟩ :=
              ih (k + 1) (escalate env k bs stB).1 (escalate env k bs stB).2 st2 res h
            refine ⟨?_, ?_, ?_, hacc2, ?_, ?_⟩
            · exact ⟨Δb ++ Δe ++ Δ2, by rw [hΔ2, htre, hΔb]; simp⟩
            · refine List.Subset.trans (List.Subset.trans hhistB ?_) hhist2
              rw [hhe]
              exact List.Subset.refl _
            · intro hni
              apply hnih2
              intro k2 i hm
              rw [htre] at hm
              rw [hhe]
              rcases List.mem_append.mp hm with hm | hm
              · exact hnihB hni k2 i hm
              · obtain ⟨ids, hei⟩ := heve _ hm
                simp at hei
            · intro hb1 hb2 hbs
              have hbnd := escalate_bounds env k bs stB hb1 hb2
              apply hbsf2 hbnd.1 hbnd.2
              intro k2 rad b cd el hm
              rw [htre] at hm
              rcases List.mem_append.mp hm with hm | hm
              · exact hbsfB hb1 hb2 hbs k2 rad b cd el hm
              · obtain ⟨ids, hei⟩ := heve _ hm
                simp at hei
            · intro hnc
              apply hncf2
              intro k2 i hm
              rw [htre] at hm
              rcases List.mem_append.mp hm with hm | hm
              · obtain ⟨rad, b, cd, el, hrs, hiel, hicd⟩ := hncfB hnc k2 i hm
                exact ⟨rad, b, cd, el, by rw [htre]; exact List.mem_append_left _ hrs,
                  hiel, hicd⟩
              · obtain ⟨ids, hei⟩ := heve _ hm
                simp at hei
      · injection h with h1 h2
        subst h1; subst h2
        exact ⟨⟨[], by simp⟩, List.Subset.refl _, fun x => x,
          by intro d hd; simp at hd, fun _ _ x => x, fun x => x⟩

lemma matchDriverToOrder_eq (env : Env) (cls : ServiceAreaClass) :
    matchLoop env (getBusinessThreshold cls) (getBusinessThreshold cls + 2) 0 50
      ⟨env.initCooldown, [], []⟩ =
      ((matchDriverToOrder env cls).1, (matchDriverToOrder env cls).2) := rfl

/-- C2.  Whenever a matching run ends with an acceptance, the 600-second
cooldown is applied to the order's entire notified-history list: the final
trace contains a `cooldownApplied` event for the full history, and every
driver notified in any batch of the run (in any round) is in that history —
not only the accepting driver or the accepting batch. -/
theorem C2_cooldown_covers_entire_history (env : Env) (cls : ServiceAreaClass)
    (d : Nat) (hacc : (matchDriverToOrder env cls).2 = .accepted d) :
    Event.cooldownApplied (matchDriverToOrder env cls).1.history 600
        ∈ (matchDriverToOrder env cls).1.trace ∧
    ∀ k i, Event.notified k i ∈ (matchDriverToOrder env cls).1.trace →
      i ∈ (matchDriverToOrder env cls).1.history := by
  obtain ⟨_, _, hnih, haccc, _, _⟩ := matchLoop_spec env (getBusinessThreshold cls)
    (getBusinessThreshold cls + 2) 0 50 ⟨env.initCooldown, [], []⟩
    (matchDriverToOrder env cls).1 (matchDriverToOrder env cls).2
    (matchDriverToOrder_eq env cls)
  refine ⟨haccc d hacc, ?_⟩
  exact hnih (by intro k i hm; simp at hm)

/-- C8.  A driver still in cooldown never receives an offer: every
`sendOrderNotification` of a run goes to a driver who, in the notifying
round's candidate filtering, passed the `isInCooldown` check — the round's
record lists the driver as eligible, and the driver is not in the cooldown
set that the round's filter consulted. -/
theorem C8_notified_only_if_not_in_cooldown (env : Env) (cls : ServiceAreaClass)
    (k i : Nat)
    (hn : Event.notified k i ∈ (matchDriverToOrder env cls).1.trace) :
    ∃ rad b cd el,
      Event.roundStarted k rad b cd el ∈ (matchDriverToOrder env cls).1.trace ∧
      i ∈ el ∧ i ∉ cd := by
  obtain ⟨_, _, _, _, _, hnc⟩ := matchLoop_spec env (getBusinessThreshold cls)
    (getBusinessThreshold cls + 2) 0 50 ⟨env.initCooldown, [], []⟩
    (matchDriverToOrder env cls).1 (matchDriverToOrder env cls).2
    (matchDriverToOrder_eq env cls)
  exact hnc (by intro k2 i2 hm; simp at hm) k i hn

/-- C10.  Throughout every execution of `matchDriverToOrder` the batch size
stays between 50 and 200 inclusive: it starts at 50, and every radius round
recorded in the trace carries a batch size in that interval. -/
theorem C10_batch_size_between_50_and_200 (env : Env) (cls : ServiceAreaClass) :
    ∀ k rad b cd el,
      Event.roundStarted k rad b cd el ∈ (matchDriverToOrder env cls).1.trace →
      50 ≤ b ∧ b ≤ 200 := by
  obtain ⟨_, _, _, _, hbsb, _⟩ := matchLoop_spec env (getBusinessThreshold cls)
    (getBusinessThreshold cls + 2) 0 50 ⟨env.initCooldown, [], []⟩
    (matchDriverToOrder env cls).1 (matchDriverToOrder env cls).2
    (matchDriverToOrder_eq env cls)
  exact hbsb (by norm_num) (by norm_num) (by intro k rad b cd el hm; simp at hm)

/-- C3.  For an urban order (maximum radius 15 km) whose snapshot never
contains a driver, `matchDriverToOrder` performs exactly 7 radius rounds, at
radii 2, 4, 6, 8, 10, 12 and 14 km, and then terminates with the
no-drivers-available outcome (the generic error the source throws); being a
total function of its fuel-bounded loop, it never diverges. -/
theorem C3_urban_seven_rounds_then_no_drivers (env : Env)
    (hd : ∀ j, env.drivers j = []) (hcd : env.initCooldown = []) :
    (matchDriverToOrder env .urban).2 =
      .thrownError "No available drivers within service area" ∧
    (matchDriverToOrder env .urban).1.trace =
      [Event.roundStarted 0 2 50 [] [], Event.roundStarted 1 4 50 [] [],
       Event.roundStarted 2 6 50 [] [], Event.roundStarted 3 8 75 [] [],
       Event.roundStarted 4 10 100 [] [], Event.roundStarted 5 12 125 [] [],
       Event.roundStarted 6 14 150 [] []] := by
  have h : matchDriverToOrder env .urban =
      (⟨[], [], emptyRounds 15 17 0 50⟩, emptyResult 15 17 0) := by
    rw [matchDriverToOrder]
    show matchLoop env 15 17 0 50 ⟨env.initCooldown, [], []⟩ = _
    rw [hcd]
    simpa using matchLoop_empty env 15 hd 17 0 50 []
  rw [h]
  exact ⟨emptyResult_urban, emptyRounds_urban⟩

/-- Witness for C3 at the concrete empty-snapshot environment. -/
theorem C3_urban_seven_rounds_then_no_drivers_witness :
    ((∀ j, envEmpty.drivers j = []) ∧ envEmpty.initCooldown = []) ∧
    ((matchDriverToOrder envEmpty .urban).2 =
        .thrownError "No available drivers within service area" ∧
      (matchDriverToOrder envEmpty .urban).1.trace =
        [Event.roundStarted 0 2 50 [] [], Event.roundStarted 1 4 50 [] [],
         Event.roundStarted 2 6 50 [] [], Event.roundStarted 3 8 75 [] [],
         Event.roundStarted 4 10 100 [] [], Event.roundStarted 5 12 125 [] [],
         Event.roundStarted 6 14 150 [] []]) :=
  ⟨⟨fun _ => rfl, rfl⟩,
    C3_urban_seven_rounds_then_no_drivers envEmpty (fun _ => rfl) rfl⟩

/-- C5.  When escalation exhausts the maximum radius with no assignment, the
source does not surface `NoDriversAvailable` as a typed failure value: line 90
of part_002 executes `throw new Error("No available drivers within service
area")`, a thrown generic exception carrying only a message string, in
contradiction with both the spec (section 7) and the function's own header
comment ("return \"no drivers available\"").  The run below exhibits the
thrown generic error. -/
theorem C5_exhaustion_throws_generic_error :
    (matchDriverToOrder envEmpty .urban).2 =
      .thrownError "No available drivers within service area" := by
  rw [envEmpty_run]

/-- An environment with a single driver (id 1) who accepts immediately. -/
def envOne : Env where
  drivers := fun _ => [⟨1, 5, 0, 0⟩]
  distance := fun _ => 1
  peak := fun _ => false
  lockOk := fun _ _ _ => true
  accept := fun _ _ ids => ids.head?
  select := fun _ _ l => l
  select_sub := fun _ _ _ _ h => h
  initCooldown := []

lemma envOne_run :
    matchDriverToOrder envOne .urban =
      (⟨[1], [1], [Event.roundStarted 0 2 50 [] [1], Event.notified 0 1,
          Event.cooldownApplied [1] 600]⟩, .accepted 1) := by
  rw [matchDriverToOrder]
  repeat (first
    | (rw [batchLoop]
       try norm_num [envOne, jsSlice, jsIndex, Int.toNat_ofNat, waitForAcceptance,
         applyFairnessCooldown, List.take_of_length_le, List.filter, escalate,
         roundFilter, getBusinessThreshold]
       try simp [envOne, jsSlice, jsIndex, Int.toNat_ofNat, waitForAcceptance,
         applyFairnessCooldown, List.take_of_length_le, List.filter, escalate,
         roundFilter, getBusinessThreshold])
    | (rw [matchLoop]
       try norm_num [envOne, jsSlice, jsIndex, Int.toNat_ofNat, waitForAcceptance,
         applyFairnessCooldown, List.take_of_length_le, List.filter, escalate,
         roundFilter, getBusinessThreshold]
       try simp [envOne, jsSlice, jsIndex, Int.toNat_ofNat, waitForAcceptance,
         applyFairnessCooldown, List.take_of_length_le, List.filter, escalate,
         roundFilter, getBusinessThreshold]))

/-- An environment realising C2's scenario across two rounds: drivers 1 and 2
are notified first with no acceptance, then driver 3 is notified and
accepts. -/
def envC2 : Env where
  drivers := fun k =>
    if k = 0 then [⟨1, 5, 0, 0⟩, ⟨2, 5, 0, 0⟩]
    else [⟨1, 5, 0, 0⟩, ⟨2, 5, 0, 0⟩, ⟨3, 5, 0, 0⟩]
  distance := fun _ => 1
  peak := fun _ => false
  lockOk := fun _ _ _ => true
  accept := fun k _ ids => if k = 0 then none else ids.head?
  select := fun _ _ l => l
  select_sub := fun _ _ _ _ h => h
  initCooldown := []

lemma envC2_run :
    matchDriverToOrder envC2 .urban =
      (⟨[1, 2, 1, 2, 3], [1, 2, 3],
        [Event.roundStarted 0 2 50 [] [1, 2], Event.notified 0 1,
         Event.notified 0 2, Event.cooldownApplied [1, 2] 600,
         Event.roundStarted 1 4 50 [1, 2] [3], Event.notified 1 3,
         Event.cooldownApplied [1, 2, 3] 600]⟩, .accepted 3) := by
  rw [matchDriverToOrder]
  repeat (first
    | (rw [batchLoop]
       try norm_num [envC2, jsSlice, jsIndex, Int.toNat_ofNat, waitForAcceptance,
         applyFairnessCooldown, List.take_of_length_le, List.filter, escalate,
         roundFilter, getBusinessThreshold]
       try simp [envC2, jsSlice, jsIndex, Int.toNat_ofNat, waitForAcceptance,
         applyFairnessCooldown, List.take_of_length_le, List.filter, escalate,
         roundFilter, getBusinessThreshold])
    | (rw [matchLoop]
       try norm_num [envC2, jsSlice, jsIndex, Int.toNat_ofNat, waitForAcceptance,
         applyFairnessCooldown, List.take_of_length_le, List.filter, escalate,
         roundFilter, getBusinessThreshold]
       try simp [envC2, jsSlice, jsIndex, Int.toNat_ofNat, waitForAcceptance,
         applyFairnessCooldown, List.take_of_length_le, List.filter, escalate,
         roundFilter, getBusinessThreshold]))

/-- Witness for C2: in the two-round run above, drivers 1 and 2 were notified
in round 0 with no acceptance and driver 3 accepted in round 1; the final
cooldown event covers the entire history and all three notified drivers are
in it. -/
theorem C2_cooldown_covers_entire_history_witness :
    (matchDriverToOrder envC2 .urban).2 = .accepted 3 ∧
    (Event.cooldownApplied (matchDriverToOrder envC2 .urban).1.history 600
        ∈ (matchDriverToOrder envC2 .urban).1.trace ∧
      ∀ k i, Event.notified k i ∈ (matchDriverToOrder envC2 .urban).1.trace →
        i ∈ (matchDriverToOrder envC2 .urban).1.history) :=
  ⟨by rw [envC2_run],
    C2_cooldown_covers_entire_history envC2 .urban 3 (by rw [envC2_run])⟩

/-- Witness for C8 at the single-driver accepting run. -/
theorem C8_notified_only_if_not_in_cooldown_witness :
    Event.notified 0 1 ∈ (matchDriverToOrder envOne .urban).1.trace ∧
    ∃ rad b cd el,
      Event.roundStarted 0 rad b cd el ∈ (matchDriverToOrder envOne .urban).1.trace ∧
      1 ∈ el ∧ 1 ∉ cd :=
  ⟨by rw [envOne_run]; simp,
    C8_notified_only_if_not_in_cooldown envOne .urban 0 1 (by rw [envOne_run]; simp)⟩

/-- Witness for C10 at the single-driver accepting run: its one recorded
round started with batch size 50, which lies within the bounds. -/
theorem C10_batch_size_between_50_and_200_witness :
    Event.roundStarted 0 2 50 [] [1] ∈ (matchDriverToOrder envOne .urban).1.trace ∧
    (50 ≤ (50 : ℚ) ∧ (50 : ℚ) ≤ 200) :=
  ⟨by rw [envOne_run]; simp,
    C10_batch_size_between_50_and_200 envOne .urban 0 2 50 [] [1]
      (by rw [envOne_run]; simp)⟩
